import Mathlib

/-!
# cors-proxy: the request handler and the flag validator of `main.go`

A shallow embedding of `handleReverseRequest` and `validateFlags`.

* Go strings are Lean `String`s.  The `strings` functions the program calls
  are written over `List Char` by structural recursion; every pattern the
  program searches for is ASCII, so searching by character and searching by
  byte find the same occurrences.
* A `map[string][]string` (`http.Header`) is a list of entries, each a key with
  its values.  A `range` loop over the map visits the entries in list order;
  every statement below holds for every list, hence for every iteration order
  Go may pick.
* The Go standard library is kept at the level of its documented contracts:
  `Header.Add` canonicalises its key; `WriteHeader` fixes the status and the
  headers set so far, and panics on a code that is no status code;
  `http.NewRequest` returns no request for a URL that `url.Parse` rejects.
  The network is a parameter: what `client.Do` returns.
* An inbound request carries the text `r.URL.String()`, an outbound request
  the URL text it was made from.  How `net/url` parses a URL and writes it
  back is not modelled.
* A reply is what the handler puts into its `http.ResponseWriter`; what the
  server does when it sends the reply out (the headers `Date`,
  `Content-Length`, `Content-Type` it adds, a body it withholds) is not part
  of it.
* Logging (`debug`, `log.Println`) has no effect on any value and is left out.
-/

namespace CorsProxy

/-! ## Package `strings` -/

namespace strings

/-- Does `substr` occur in the byte sequence, at any position? -/
def containsList (substr : List Char) : List Char → Bool
  | [] => substr.isPrefixOf []
  | c :: t => substr.isPrefixOf (c :: t) || containsList substr t

/-- Go `strings.Contains(s, substr)`. -/
def Contains (s substr : String) : Bool :=
  containsList substr.data s.data

/-- Replace the leftmost occurrence of `old` by `new`; without one the
sequence is returned as it is. -/
def replaceList (old new : List Char) : List Char → List Char
  | [] => if old.isPrefixOf [] then new else []
  | c :: t =>
    if old.isPrefixOf (c :: t) then new ++ (c :: t).drop old.length
    else c :: replaceList old new t

/-- Go `strings.Replace(s, old, new, 1)`: the count is fixed at 1, as at the
only call in the program. -/
def Replace (s old new : String) : String :=
  ⟨replaceList old.data new.data s.data⟩

/-- Cut a byte sequence at every occurrence of the separator byte. -/
def splitList (sep : Char) : List Char → List (List Char)
  | [] => [[]]
  | c :: t =>
    if c = sep then [] :: splitList sep t
    else
      match splitList sep t with
      | [] => [[c]]
      | p :: ps => (c :: p) :: ps

/-- Go `strings.Split(s, sep)` for a one-byte separator, which is how the
program calls it (`":"`).  The result has one element more than `s` has
separators. -/
def Split (s : String) (sep : Char) : List String :=
  (splitList sep s.data).map String.mk

end strings

/-! ## Process configuration and `validateFlags` -/

/-- The package-level variables of `main.go`, set from the command line. -/
structure Flags where
  /-- Upstream `host:port` to connect to (`-p`). -/
  portTo : String
  /-- The `host:port` to listen on (`-l`). -/
  listen : String
  /-- Verbose messages (`-v`). -/
  verbose : Bool
  deriving DecidableEq, Repr

/-- The values the variables are initialised with. -/
def Flags.default : Flags :=
  { portTo := "127.0.0.1:8000", listen := "0.0.0.0:3000", verbose := false }

/-- How a Go procedure ends. -/
inductive Exit (α : Type) where
  /-- It returned, leaving this state. -/
  | returned (a : α)
  /-- It called `log.Fatalf`: the message is logged and the process exits with status 1. -/
  | fatal (msg : String)
  /-- A run-time panic. -/
  | panicked (msg : String)
  deriving DecidableEq, Repr

/-- The loop `for _, f := range []string{portTo, listen}`: the first `f`
without a `":"`, if there is one. -/
def firstWithoutSeparator : List String → Option String
  | [] => none
  | f :: fs => if !strings.Contains f ":" then some f else firstWithoutSeparator fs

/-- `validateFlags` of `main.go`. -/
def validateFlags (g : Flags) : Exit Flags :=
  match firstWithoutSeparator [g.portTo, g.listen] with
  | some f =>
    .fatal (f ++ " is not right, you must use a coma mark to separate host and port")
  | none =>
    let parts := strings.Split g.portTo ':'
    match parts[0]? with
    | none => .panicked "index out of range [0]"
    | some p0 =>
      if p0 = "" then
        match parts[1]? with
        | none => .panicked "index out of range [1]"
        | some p1 => .returned { g with portTo := "127.0.0.1:" ++ p1 }
      else .returned g

/-- The text of an address before its first `':'`. -/
def hostOf (addr : String) : String :=
  ⟨addr.data.takeWhile (fun c => c != ':')⟩

/-- The text of an address after its first `':'`. -/
def portOf (addr : String) : String :=
  ⟨(addr.data.dropWhile (fun c => c != ':')).drop 1⟩

/-- The invariant the specification gives for UpstreamAddress: exactly one
separator, between a non-empty host and a non-empty port. -/
def UpstreamAddressInvariant (addr : String) : Prop :=
  addr.data.count ':' = 1 ∧ hostOf addr ≠ "" ∧ portOf addr ≠ ""

instance (addr : String) : Decidable (UpstreamAddressInvariant addr) := by
  unfold UpstreamAddressInvariant; infer_instance

/-! ## Package `net/textproto` -/

namespace textproto

/-- The bytes of an HTTP token (RFC 7230): letters, digits and fifteen marks.
A header name and a request method are made of these. -/
def validHeaderFieldByte (c : Char) : Bool :=
  c.isAlphanum || "!#$%&'*+-.^_`|~".data.contains c

/-- One step of the canonicalisation loop: a lower-case letter where an
upper-case one is due is raised, an upper-case letter elsewhere is lowered. -/
def canonicalByte (upper : Bool) (c : Char) : Char :=
  if upper && c.isLower then c.toUpper
  else if !upper && c.isUpper then c.toLower
  else c

/-- The canonicalisation loop: `upper` holds at the first byte and after
each `'-'`. -/
def canonicalBytes (upper : Bool) : List Char → List Char
  | [] => []
  | c :: t => canonicalByte upper c :: canonicalBytes (canonicalByte upper c == '-') t

/-- Go `textproto.CanonicalMIMEHeaderKey(s)`: the first letter and every letter
after a hyphen in upper case, the others in lower case; a key holding a space
or any other byte that is not a token byte is returned without modification. -/
def CanonicalMIMEHeaderKey (s : String) : String :=
  if s.data.all validHeaderFieldByte then ⟨canonicalBytes true s.data⟩ else s

end textproto

/-! ## Package `net/url`: what `url.Parse` rejects -/

namespace url

/-- Go `stringContainsCTLByte`: an ASCII control byte occurs. -/
def stringContainsCTLByte (s : List Char) : Bool :=
  s.any (fun c => c.toNat < 0x20 || c.toNat == 0x7f)

/-- The loop of Go `getScheme`; `seen` is the text read so far.  `none` is
the error "missing protocol scheme". -/
def getSchemeFrom (rawURL seen : List Char) : List Char → Option (List Char × List Char)
  | [] => some ([], rawURL)
  | c :: t =>
    if c.isAlpha then getSchemeFrom rawURL (seen ++ [c]) t
    else if c.isDigit || c == '+' || c == '-' || c == '.' then
      if seen.isEmpty then some ([], rawURL) else getSchemeFrom rawURL (seen ++ [c]) t
    else if c == ':' then
      if seen.isEmpty then none else some (seen, t)
    else some ([], rawURL)

/-- Go `getScheme(rawURL)`: the scheme and what follows its `':'`. -/
def getScheme (rawURL : List Char) : Option (List Char × List Char) :=
  getSchemeFrom rawURL [] rawURL

/-- Go `validOptionalPort(port)`: empty, or `':'` followed by digits only. -/
def validOptionalPort : List Char → Bool
  | [] => true
  | c :: rest => c == ':' && rest.all Char.isDigit

/-- The text from the last occurrence of `c` on (`s[strings.LastIndex(s, c):]`). -/
def fromLast (c : Char) : List Char → Option (List Char)
  | [] => none
  | x :: t =>
    match fromLast c t with
    | some r => some r
    | none => if x = c then some (x :: t) else none

/-- The port checks of Go `parseHost(host)`; `none` is one of its errors
"missing ']' in host" and "invalid port ... after host". -/
def parseHost (host : List Char) : Option Unit :=
  if "[".data.isPrefixOf host then
    match fromLast ']' host with
    | none => none
    | some r => if !validOptionalPort (r.drop 1) then none else some ()
  else
    match fromLast ':' host with
    | some colonPort => if !validOptionalPort colonPort then none else some ()
    | none => some ()

/-- Go `parseAuthority(authority)`: the host is what follows the last `'@'`. -/
def parseAuthority (authority : List Char) : Option Unit :=
  match fromLast '@' authority with
  | none => parseHost authority
  | some r => parseHost (r.drop 1)

/-- Go `url.Parse(rawURL)`: only whether it returns an error (`none`), and of
its rejections only these: a control byte, a scheme that starts with `':'`, a
colon in the first segment of a relative path, and the port checks of
`parseHost`.  The checks of percent-escapes, of host characters and of the
userinfo are not modelled, so `Parse` may accept a URL that Go rejects; what
it rejects, Go rejects.  The URL Go returns is not modelled, nor the text of
the error, which the program never reads. -/
def Parse (rawURL : String) : Option Unit :=
  let u := rawURL.data.takeWhile (fun c => c != '#')
  if stringContainsCTLByte u then none
  else
    match getScheme u with
    | none => none
    | some (scheme, rest) =>
      let rest := rest.takeWhile (fun c => c != '?')
      if !"/".data.isPrefixOf rest then
        if !scheme.isEmpty then some ()
        else if (rest.takeWhile (fun c => c != '/')).contains ':' then none
        else some ()
      else if (!scheme.isEmpty || !"///".data.isPrefixOf rest) && "//".data.isPrefixOf rest then
        parseAuthority ((rest.drop 2).takeWhile (fun c => c != '/'))
      else some ()

end url

/-! ## Package `net/http` -/

namespace http

/-- Go `http.Header`, a `map[string][]string`: the entries, each a key with
its values in order. -/
abbrev Header := List (String × List String)

/-- The map update `h[key] = append(h[key], value)`. -/
def Header.append : Header → String → String → Header
  | [], key, value => [(key, [value])]
  | (k, vs) :: t, key, value =>
    if k = key then (k, vs ++ [value]) :: t else (k, vs) :: Header.append t key value

/-- Go `h.Add(key, value)`: the key is canonicalised, the value appended to
the values already under it. -/
def Header.Add (h : Header) (key value : String) : Header :=
  Header.append h (textproto.CanonicalMIMEHeaderKey key) value

/-- The map index `h[key]`: the values under `key`, in order; empty when the key is absent. -/
def Header.index (h : Header) (key : String) : List String :=
  (h.filter (fun e => e.1 = key)).flatMap (fun e => e.2)

/-- The names in a header are in the form `CanonicalMIMEHeaderKey` leaves
unchanged.  It is how `net/http` stores the names of every message it has read
from the wire, the server's requests and the client's responses alike. -/
def Header.Canonical (h : Header) : Prop :=
  ∀ e ∈ h, textproto.CanonicalMIMEHeaderKey e.1 = e.1

instance (h : Header) : Decidable (Header.Canonical h) := by
  unfold Header.Canonical; infer_instance

/-- Go `*http.Request` as the server hands it to the handler: the fields the
handler reads. -/
structure Request where
  /-- The request method. -/
  Method : String
  /-- The text `r.URL.String()`: the server's rendering of the request target
  it parsed.  For a target in origin form it is the path, escaped the way Go
  writes it, and the query; for a target in absolute form it is the whole
  `scheme://host/path?query`. -/
  URL : String
  /-- The request body. -/
  Body : String
  /-- Whether `r.TLS != nil`: the request came over a TLS connection. -/
  TLS : Bool
  /-- The header map. -/
  Header : http.Header
  deriving DecidableEq, Repr

/-- The `*http.Request` that `http.NewRequest` makes, given by what it is made
from.  Go keeps as its URL the parse of `Target`, which it may render
otherwise (an empty port is dropped); that parse is not modelled, and no
statement below is about it. -/
structure ClientRequest where
  /-- The request method. -/
  Method : String
  /-- The URL text `http.NewRequest` was called with. -/
  Target : String
  /-- The request body. -/
  Body : String
  /-- The header map. -/
  Header : http.Header
  deriving DecidableEq, Repr

/-- Go `*http.Response`, the fields the handler reads. -/
structure Response where
  /-- The status code. -/
  StatusCode : Nat
  /-- The response body. -/
  Body : String
  /-- The header map. -/
  Header : http.Header
  deriving DecidableEq, Repr

/-- Go `http.Transport`, the one setting the handler makes. -/
structure Transport where
  /-- The field `TLSClientConfig.InsecureSkipVerify`. -/
  InsecureSkipVerify : Bool
  deriving DecidableEq, Repr

/-- Go `http.Client`. -/
structure Client where
  /-- The transport; `none` is the default transport. -/
  Transport : Option http.Transport
  deriving DecidableEq, Repr

/-- Go `validMethod(method)`: a non-empty token. -/
def validMethod (method : String) : Bool :=
  !method.data.isEmpty && method.data.all textproto.validHeaderFieldByte

/-- Go `http.NewRequest(method, url, body)`: an empty method stands for GET;
an invalid method or a URL that `url.Parse` rejects gives a nil request and an
error (`none`; the program never reads the error); otherwise a request with
an empty header map. -/
def NewRequest (method target body : String) : Option ClientRequest :=
  let method := if method = "" then "GET" else method
  if !validMethod method then none
  else
    match url.Parse target with
    | none => none
    | some _ => some { Method := method, Target := target, Body := body, Header := [] }

/-- Go `http.ResponseWriter`, as a record of what the handler did to it. -/
structure ResponseWriter where
  /-- The map `w.Header()`. -/
  header : Header
  /-- The status code given to the first `WriteHeader` that fixed one, with
  the headers as they stood at that call; `none` while no status is fixed. -/
  committed : Option (Nat × Header)
  /-- The bytes the handler wrote to the body so far. -/
  body : String
  deriving DecidableEq, Repr

/-- The writer a handler is called with: nothing set, nothing written. -/
def ResponseWriter.fresh : ResponseWriter :=
  { header := [], committed := none, body := "" }

/-- The call `w.Header().Add(key, value)`. -/
def ResponseWriter.addHeader (w : ResponseWriter) (key value : String) : ResponseWriter :=
  { w with header := Header.Add w.header key value }

/-- Go `w.WriteHeader(code)` of the server's response writer.  Once a status
is fixed a further call is ignored.  Otherwise a code below 100 or above 999
panics (`none`); a code from 100 to 199 other than 101 goes out as an
informational response and fixes nothing; any other code fixes the status and
the headers. -/
def ResponseWriter.WriteHeader (w : ResponseWriter) (code : Nat) : Option ResponseWriter :=
  match w.committed with
  | some _ => some w
  | none =>
    if code < 100 || code > 999 then none
    else if 100 ≤ code && code ≤ 199 && code != 101 then some w
    else some { w with committed := some (code, w.header) }

/-- Go `w.Write(b)`: fixes status 200 first if no status is fixed yet. -/
def ResponseWriter.Write (w : ResponseWriter) (b : String) : ResponseWriter :=
  match w.committed with
  | some _ => { w with body := w.body ++ b }
  | none => { w with committed := some (200, w.header), body := w.body ++ b }

/-- Go `io.Copy(w, src)` for a body read without error: an empty body gives
no call of `Write`, any other body is written whole. -/
def ResponseWriter.Copy (w : ResponseWriter) (src : String) : ResponseWriter :=
  if src = "" then w else w.Write src

/-- The reply the handler has made when it returns: the status and headers
it fixed and the body it wrote.  What the server does with them when it sends
them out is not part of it. -/
structure Reply where
  /-- The status code. -/
  status : Nat
  /-- The headers sent. -/
  header : Header
  /-- The body sent. -/
  body : String
  deriving DecidableEq, Repr

/-- The reply of a writer: what was committed, or status 200 with the
headers as they stand when `WriteHeader` was never called. -/
def ResponseWriter.reply (w : ResponseWriter) : Reply :=
  match w.committed with
  | some (code, h) => { status := code, header := h, body := w.body }
  | none => { status := 200, header := w.header, body := w.body }

end http

/-! ## `handleReverseRequest` -/

/-- How a call of the handler ended. -/
inductive Ending where
  /-- It returned. -/
  | returned
  /-- It panicked: it dereferenced the nil request left by a failed
  `http.NewRequest`, or `WriteHeader` refused the status code. -/
  | panicked
  deriving DecidableEq, Repr

/-- What one call of the handler did. -/
structure Handled where
  /-- The response writer as the handler left it. -/
  w : http.ResponseWriter
  /-- The calls `client.Do(req)` it made, each with its client. -/
  calls : List (http.Client × http.ClientRequest)
  /-- How it ended. -/
  ending : Ending
  deriving DecidableEq, Repr

/-- The target URL: `fmt.Sprintf("%s://%s%s", scheme, portTo, r.URL.String())`. -/
def toCall (g : Flags) (r : http.Request) : String :=
  (if r.TLS then "https" else "http") ++ "://" ++ g.portTo ++ r.URL

/-- The value of `Access-Control-Allow-Methods`. -/
def allowMethods : String :=
  "GET, PUT, POST, HEAD, TRACE, DELETE, PATCH, COPY, HEAD, LINK, OPTIONS"

/-- The loop of the preflight branch: the values of every inbound name that
contains `Access-Control-Request`, added under the name with its first
`Request` replaced by `Allow`. -/
def preflightHeaders (w : http.ResponseWriter) (h : http.Header) : http.ResponseWriter :=
  h.foldl (fun w e =>
    if strings.Contains e.1 "Access-Control-Request" then
      e.2.foldl (fun w v => w.addHeader (strings.Replace e.1 "Request" "Allow") v) w
    else w) w

/-- The loop `for n, h := range r.Header { for _, h := range h { req.Header.Add(n, h) } }`. -/
def copyRequestHeaders (req : http.ClientRequest) (h : http.Header) : http.ClientRequest :=
  h.foldl (fun req e =>
    e.2.foldl (fun req v => { req with Header := http.Header.Add req.Header e.1 v }) req) req

/-- The loop `for h, v := range resp.Header { for _, v := range v { w.Header().Add(h, v) } }`. -/
def copyResponseHeaders (w : http.ResponseWriter) (h : http.Header) : http.ResponseWriter :=
  h.foldl (fun w e => e.2.foldl (fun w v => w.addHeader e.1 v) w) w

/-- The client the handler makes: the default one, with a transport that
skips certificate verification when the inbound request came over TLS. -/
def clientFor (r : http.Request) : http.Client :=
  { Transport := if r.TLS then some { InsecureSkipVerify := true } else none }

/-- `handleReverseRequest` of `main.go`.  `Do` is the network: what
`client.Do(req)` returns, a response or an error given by its text.  A failed
`http.NewRequest` leaves `req` nil, and the handler panics on it, at
`req.Header.Add` or inside `client.Do`. -/
def handleReverseRequest (g : Flags)
    (Do : http.Client → http.ClientRequest → Except String http.Response)
    (w : http.ResponseWriter) (r : http.Request) : Handled :=
  let w := w.addHeader "Access-Control-Allow-Origin" "*"
  let w := w.addHeader "Access-Control-Allow-Methods" allowMethods
  if r.Method = "OPTIONS" then
    { w := preflightHeaders w r.Header, calls := [], ending := .returned }
  else
    match http.NewRequest r.Method (toCall g r) r.Body with
    | none => { w := w, calls := [], ending := .panicked }
    | some req =>
      let req := copyRequestHeaders req r.Header
      let client := clientFor r
      match Do client req with
      | .error err =>
        match w.WriteHeader 500 with
        | none => { w := w, calls := [(client, req)], ending := .panicked }
        | some w => { w := w.Write err, calls := [(client, req)], ending := .returned }
      | .ok resp =>
        let w := copyResponseHeaders w resp.Header
        match w.WriteHeader resp.StatusCode with
        | none => { w := w, calls := [(client, req)], ending := .panicked }
        | some w => { w := w.Copy resp.Body, calls := [(client, req)], ending := .returned }

/-- The handler as the server calls it: with a fresh response writer. -/
def serve (g : Flags) (Do : http.Client → http.ClientRequest → Except String http.Response)
    (r : http.Request) : Handled :=
  handleReverseRequest g Do http.ResponseWriter.fresh r

/-- A network on which every call fails: the upstream is unreachable. -/
def unreachable : http.Client → http.ClientRequest → Except String http.Response :=
  fun _ _ => .error "dial tcp 127.0.0.1:9001: connect: connection refused"

/-- A network whose upstream answers every call with status 204, the header
`X-Test: ok` and no body. -/
def upstream204 : http.Client → http.ClientRequest → Except String http.Response :=
  fun _ _ => .ok { StatusCode := 204, Body := "", Header := [("X-Test", ["ok"])] }

/-- A network whose upstream answers every call with status 200, the header
`X-Test: ok` and the body `hello`. -/
def upstream200 : http.Client → http.ClientRequest → Except String http.Response :=
  fun _ _ => .ok { StatusCode := 200, Body := "hello", Header := [("X-Test", ["ok"])] }

/-- A network whose upstream answers every call with the status line
`HTTP/1.1 099 Gone`, which Go's client reads as status 99, and the body `gone`. -/
def upstream099 : http.Client → http.ClientRequest → Except String http.Response :=
  fun _ _ => .ok { StatusCode := 99, Body := "gone", Header := [] }

/-- The flags with the upstream address `127.0.0.1:9001`. -/
def flags9001 : Flags :=
  { portTo := "127.0.0.1:9001", listen := "0.0.0.0:3000", verbose := false }

/-- The preflight request `OPTIONS /api` of a browser. -/
def preflightExample : http.Request :=
  { Method := "OPTIONS", URL := "/api", Body := "", TLS := false,
    Header := [("Access-Control-Request-Headers", ["X-Custom"]),
               ("X-Access-Control-Request-Request-Id", ["a", "b"]),
               ("Accept", ["*/*"])] }

/-- The request `POST /items?x=1` over plain HTTP with a JSON body. -/
def postExample : http.Request :=
  { Method := "POST", URL := "/items?x=1", Body := "\x7b\"a\":1\x7d", TLS := false,
    Header := [("Content-Type", ["application/json"]), ("Accept", ["text/html", "*/*"])] }

/-- The flags with the upstream address `localhost:http`, a port given by
its service name: it has a separator and a host, and `validateFlags` accepts it. -/
def flagsServiceName : Flags :=
  { portTo := "localhost:http", listen := "0.0.0.0:3000", verbose := false }

/-- The request `GET /` over plain HTTP. -/
def getExample : http.Request :=
  { Method := "GET", URL := "/", Body := "", TLS := false, Header := [("Accept", ["*/*"])] }

/-- The request `GET http://example.com/foo?x=1 HTTP/1.1`, its target in
absolute form, over plain HTTP: the server parses the target into a URL with
scheme and host, and `r.URL.String()` gives the whole of it back. -/
def absoluteExample : http.Request :=
  { Method := "GET", URL := "http://example.com/foo?x=1", Body := "", TLS := false,
    Header := [("Accept", ["*/*"])] }

/-- The two headers every reply starts from. -/
def baseHeaders : http.Header :=
  [("Access-Control-Allow-Origin", ["*"]), ("Access-Control-Allow-Methods", [allowMethods])]

/-! ## Vocabulary for the statements about headers -/

/-- A status code that `WriteHeader` fixes as the status of the reply: 101,
or from 200 to 999.  Go's client hands out no response with another code
above 99: it reads over the informational responses 100 and 102 to 199. -/
def http.finalStatus (code : Nat) : Prop :=
  (code = 101 ∨ 200 ≤ code) ∧ code ≤ 999

instance (code : Nat) : Decidable (http.finalStatus code) := by
  unfold http.finalStatus; infer_instance

/-- The keys of a header are pairwise distinct, as the keys of a Go map are. -/
def http.Header.NodupKeys (h : http.Header) : Prop :=
  (h.map Prod.fst).Nodup

/-- The values, in the order of `h`, of the entries of `h` whose name `f`
sends to `key`. -/
def http.Header.valuesVia (f : String → Option String) (h : http.Header) (key : String) :
    List String :=
  (h.filter (fun e => f e.1 = some key)).flatMap (fun e => e.2)

/-- The shape the three header loops share: the values of every entry of
`src` whose name `f` keeps are appended to `dst` under the name `f` gives. -/
def http.Header.appendVia (f : String → Option String) (dst src : http.Header) : http.Header :=
  src.foldl (fun d e =>
    match f e.1 with
    | some k => e.2.foldl (fun d v => http.Header.append d k v) d
    | none => d) dst

/-- The name the preflight loop answers an inbound name with, if it answers it. -/
def preflightName (n : String) : Option String :=
  if strings.Contains n "Access-Control-Request" then
    some (strings.Replace n "Request" "Allow")
  else none

/-! ## Lemmas on `strings` -/

theorem containsList_singleton (c : Char) (l : List Char) :
    strings.containsList [c] l = true ↔ c ∈ l := by
  induction l with
  | nil => simp [strings.containsList, List.isPrefixOf]
  | cons a t ih =>
    simp only [strings.containsList, List.isPrefixOf, Bool.or_eq_true, Bool.and_eq_true, ih,
      List.mem_cons, beq_iff_eq]
    constructor
    · rintro (⟨h, -⟩ | h)
      · exact Or.inl h
      · exact Or.inr h
    · rintro (h | h)
      · exact Or.inl ⟨h, by cases t <;> trivial⟩
      · exact Or.inr h

theorem Contains_colon (s : String) : strings.Contains s ":" = true ↔ ':' ∈ s.data := by
  unfold strings.Contains
  exact containsList_singleton ':' s.data

theorem splitList_eq (sep : Char) (l : List Char) :
    strings.splitList sep l =
      l.takeWhile (fun c => c != sep) ::
        (match l.dropWhile (fun c => c != sep) with
          | [] => []
          | _ :: r => strings.splitList sep r) := by
  induction l with
  | nil => rfl
  | cons a t ih =>
    by_cases h : a = sep
    · subst h
      simp [strings.splitList, List.takeWhile, List.dropWhile]
    · have h1 : (a != sep) = true := by simpa using h
      rw [strings.splitList, if_neg h, ih]
      simp [List.takeWhile, List.dropWhile, h1]

theorem takeWhile_ne_of_not_mem (sep : Char) (l : List Char) (h : sep ∉ l) :
    l.takeWhile (fun c => c != sep) = l := by
  induction l with
  | nil => rfl
  | cons a t ih =>
    have ha : a ≠ sep := fun e => h (by simp [e])
    have ht : sep ∉ t := fun e => h (by simp [e])
    have h1 : (a != sep) = true := by simpa using ha
    simp [List.takeWhile, h1, ih ht]

theorem dropWhile_ne_of_mem (sep : Char) (l : List Char) (h : sep ∈ l) :
    ∃ r, l.dropWhile (fun c => c != sep) = sep :: r := by
  induction l with
  | nil => simp at h
  | cons a t ih =>
    by_cases ha : a = sep
    · subst ha
      exact ⟨t, by simp [List.dropWhile]⟩
    · have ht : sep ∈ t := by
        rcases List.mem_cons.mp h with e | e
        · exact absurd e.symm ha
        · exact e
      obtain ⟨r, hr⟩ := ih ht
      have h1 : (a != sep) = true := by simpa using ha
      exact ⟨r, by simp [List.dropWhile, h1, hr]⟩

/-- What `validateFlags` does once both addresses have a separator. -/
theorem validateFlags_of_separators (g : Flags)
    (hp : ':' ∈ g.portTo.data) (hl : ':' ∈ g.listen.data) :
    validateFlags g =
      if hostOf g.portTo = "" then
        .returned { g with portTo := "127.0.0.1:" ++ hostOf (portOf g.portTo) }
      else .returned g := by
  have h1 : strings.Contains g.portTo ":" = true := (Contains_colon _).mpr hp
  have h2 : strings.Contains g.listen ":" = true := (Contains_colon _).mpr hl
  obtain ⟨r, hr⟩ := dropWhile_ne_of_mem ':' g.portTo.data hp
  unfold validateFlags
  simp only [firstWithoutSeparator, h1, h2, Bool.not_true, Bool.false_eq_true, if_false]
  simp only [strings.Split, splitList_eq ':' g.portTo.data, hr, splitList_eq ':' r]
  simp [hostOf, portOf, hr]

/-! ## Lemmas on header maps -/

open http in
theorem mem_keys_append (h : Header) (k v x : String) :
    x ∈ (Header.append h k v).map Prod.fst ↔ x = k ∨ x ∈ h.map Prod.fst := by
  induction h with
  | nil => simp [Header.append]
  | cons e t ih =>
    obtain ⟨k1, vs⟩ := e
    by_cases hk : k1 = k
    · subst hk
      simp [Header.append]
    · simp only [Header.append, if_neg hk, List.map_cons, List.mem_cons, ih]
      tauto

open http in
theorem nodupKeys_append (h : Header) (k v : String) (hn : Header.NodupKeys h) :
    Header.NodupKeys (Header.append h k v) := by
  unfold Header.NodupKeys at *
  induction h with
  | nil => simp [Header.append]
  | cons e t ih =>
    obtain ⟨k1, vs⟩ := e
    rw [List.map_cons, List.nodup_cons] at hn
    by_cases hk : k1 = k
    · subst hk
      simpa [Header.append, List.nodup_cons] using hn
    · simp only [Header.append, if_neg hk, List.map_cons, List.nodup_cons, mem_keys_append]
      exact ⟨fun hx => hx.elim hk hn.1, ih hn.2⟩

open http in
theorem index_of_not_mem_keys (h : Header) (k : String) (hk : k ∉ h.map Prod.fst) :
    Header.index h k = [] := by
  induction h with
  | nil => rfl
  | cons e t ih =>
    obtain ⟨k1, vs⟩ := e
    simp only [List.map_cons, List.mem_cons, not_or] at hk
    have h1 : ¬ k1 = k := fun e => hk.1 e.symm
    have := ih hk.2
    simp only [Header.index] at this ⊢
    simp [List.filter_cons, h1, this]

open http in
theorem index_cons (e : String × List String) (t : Header) (k : String) :
    Header.index (e :: t) k = (if e.1 = k then e.2 else []) ++ Header.index t k := by
  unfold Header.index
  by_cases h : e.1 = k <;> simp [List.filter_cons, h]

open http in
theorem index_append (h : Header) (k v k' : String) (hn : Header.NodupKeys h) :
    Header.index (Header.append h k v) k' = Header.index h k' ++ (if k = k' then [v] else []) := by
  induction h with
  | nil =>
    by_cases hk : k = k' <;> simp [Header.append, Header.index, List.filter_cons, hk]
  | cons e t ih =>
    obtain ⟨k1, vs⟩ := e
    have hn' : k1 ∉ t.map Prod.fst ∧ Header.NodupKeys t := by
      simpa [Header.NodupKeys, List.nodup_cons] using hn
    by_cases hk : k1 = k
    · subst hk
      simp only [Header.append, if_true, index_cons]
      by_cases hk' : k1 = k'
      · subst hk'
        simp [index_of_not_mem_keys t k1 hn'.1]
      · simp [hk']
    · simp only [Header.append, if_neg hk, index_cons, ih hn'.2, List.append_assoc]

open http in
theorem foldl_append_spec (vs : List String) (h : Header) (k : String)
    (hn : Header.NodupKeys h) :
    Header.NodupKeys (vs.foldl (fun d v => Header.append d k v) h) ∧
    ∀ k', Header.index (vs.foldl (fun d v => Header.append d k v) h) k' =
      Header.index h k' ++ (if k = k' then vs else []) := by
  induction vs generalizing h with
  | nil => exact ⟨hn, fun k' => by simp⟩
  | cons v t ih =>
    obtain ⟨h1, h2⟩ := ih (Header.append h k v) (nodupKeys_append h k v hn)
    refine ⟨h1, fun k' => ?_⟩
    rw [List.foldl_cons, h2 k', index_append h k v k' hn]
    by_cases hk : k = k' <;> simp [hk]

open http in
theorem appendVia_spec (f : String → Option String) (src dst : Header)
    (hn : Header.NodupKeys dst) :
    Header.NodupKeys (Header.appendVia f dst src) ∧
    ∀ k, Header.index (Header.appendVia f dst src) k =
      Header.index dst k ++ Header.valuesVia f src k := by
  induction src generalizing dst with
  | nil => exact ⟨hn, fun k => by simp [Header.appendVia, Header.valuesVia]⟩
  | cons e t ih =>
    cases hf : f e.1 with
    | none =>
      obtain ⟨h1, h2⟩ := ih dst hn
      have e1 : Header.appendVia f dst (e :: t) = Header.appendVia f dst t := by
        simp [Header.appendVia, hf]
      rw [e1]
      refine ⟨h1, fun k => ?_⟩
      rw [h2 k]
      simp [Header.valuesVia, List.filter_cons, hf]
    | some k0 =>
      obtain ⟨g1, g2⟩ := foldl_append_spec e.2 dst k0 hn
      obtain ⟨h1, h2⟩ := ih _ g1
      have e1 : Header.appendVia f dst (e :: t) =
          Header.appendVia f (e.2.foldl (fun d v => Header.append d k0 v) dst) t := by
        simp [Header.appendVia, hf]
      rw [e1]
      refine ⟨h1, fun k => ?_⟩
      rw [h2 k, g2 k]
      by_cases hk : k0 = k <;>
        simp [Header.valuesVia, List.filter_cons, hf, hk]

/-! ## Canonical names and the replacement of `Request` by `Allow` -/

theorem replaceList_spec (old new l : List Char) :
    strings.replaceList old new l = l ∨
    ∃ pre post, l = pre ++ (old ++ post) ∧ strings.replaceList old new l = pre ++ (new ++ post) := by
  induction l with
  | nil =>
    by_cases h : old.isPrefixOf [] = true
    · right
      have ho : old = [] := by
        have := List.isPrefixOf_iff_prefix.mp h
        simpa using this
      exact ⟨[], [], by simp [ho], by simp [strings.replaceList, ho]⟩
    · left
      simp [strings.replaceList, h]
  | cons c t ih =>
    by_cases h : old.isPrefixOf (c :: t) = true
    · right
      have hp := List.prefix_iff_eq_append.mp (List.isPrefixOf_iff_prefix.mp h)
      exact ⟨[], (c :: t).drop old.length, by simpa using hp.symm,
        by simp [strings.replaceList, h]⟩
    · rcases ih with ih | ⟨pre, post, h1, h2⟩
      · left
        simp [strings.replaceList, h, ih]
      · right
        exact ⟨c :: pre, post, by simp [h1], by simp [strings.replaceList, h, h2]⟩

theorem containsList_iff_occurs (sub l : List Char) :
    strings.containsList sub l = true ↔ sub <:+: l := by
  induction l with
  | nil =>
    rw [strings.containsList, List.isPrefixOf_iff_prefix, List.prefix_nil, List.infix_nil]
  | cons c t ih =>
    rw [strings.containsList, Bool.or_eq_true, List.isPrefixOf_iff_prefix, ih,
      List.infix_cons_iff]

theorem replaceList_first (old new pre post : List Char) (hold : old ≠ [])
    (h : ¬ old <:+: pre ++ old.dropLast) :
    strings.replaceList old new (pre ++ (old ++ post)) = pre ++ (new ++ post) := by
  induction pre with
  | nil =>
    obtain ⟨c, t, hct⟩ := List.exists_cons_of_ne_nil hold
    have hp : old.isPrefixOf (old ++ post) = true :=
      List.isPrefixOf_iff_prefix.mpr (List.prefix_append old post)
    have hd : (old ++ post).drop old.length = post := List.drop_left old post
    rw [List.nil_append, List.nil_append]
    rw [hct] at hp hd ⊢
    rw [List.cons_append] at hp hd ⊢
    rw [strings.replaceList, if_pos hp, hd]
  | cons c t ih =>
    have hnot : ¬ old.isPrefixOf (c :: (t ++ (old ++ post))) = true := by
      intro hp
      have hp1 : old <+: c :: (t ++ (old ++ post)) := List.isPrefixOf_iff_prefix.mp hp
      have hp2 : (c :: t) ++ old.dropLast <+: c :: (t ++ (old ++ post)) := by
        have e : c :: (t ++ (old ++ post)) =
            ((c :: t) ++ old.dropLast) ++ ([old.getLast hold] ++ post) := by
          rw [List.append_assoc, ← List.append_assoc old.dropLast,
            List.dropLast_append_getLast hold, List.cons_append]
        rw [e]
        exact List.prefix_append _ _
      have hlen : old.length ≤ ((c :: t) ++ old.dropLast).length := by
        simp only [List.length_append, List.length_cons, List.length_dropLast]
        omega
      exact h (List.prefix_of_prefix_length_le hp1 hp2 hlen).isInfix
    have ht : ¬ old <:+: t ++ old.dropLast := fun hi => h (List.infix_cons hi)
    rw [List.cons_append, strings.replaceList, if_neg hnot, ih ht, List.cons_append]

theorem Contains_iff_occurs (s substr : String) :
    strings.Contains s substr = true ↔ substr.data <:+: s.data :=
  containsList_iff_occurs substr.data s.data

theorem Replace_first (pre post : String)
    (h : ¬ "Request".data <:+: (pre ++ "Reques").data) :
    strings.Replace (pre ++ "Request" ++ post) "Request" "Allow" = pre ++ "Allow" ++ post := by
  apply String.ext_iff.mpr
  have hd : (pre ++ "Request" ++ post).data = pre.data ++ ("Request".data ++ post.data) := by
    simp [String.data_append]
  have hr : (pre ++ "Allow" ++ post).data = pre.data ++ ("Allow".data ++ post.data) := by
    simp [String.data_append]
  rw [hr]
  show strings.replaceList "Request".data "Allow".data (pre ++ "Request" ++ post).data = _
  rw [hd]
  apply replaceList_first _ _ _ _ (by decide)
  rw [String.data_append] at h
  exact h

theorem canonicalBytes_replace (pre post : List Char) (u : Bool)
    (h : textproto.canonicalBytes u (pre ++ ("Request".data ++ post)) =
      pre ++ ("Request".data ++ post)) :
    textproto.canonicalBytes u (pre ++ ("Allow".data ++ post)) =
      pre ++ ("Allow".data ++ post) := by
  induction pre generalizing u with
  | nil =>
    have e2 : textproto.canonicalBytes true ("Allow".data ++ post) =
        "Allow".data ++ textproto.canonicalBytes false post := rfl
    cases u with
    | false =>
      have e1 : textproto.canonicalBytes false ("Request".data ++ post) =
          "request".data ++ textproto.canonicalBytes false post := rfl
      rw [List.nil_append, e1] at h
      have h0 : ('r' : Char) = 'R' := (List.cons.inj h).1
      exact absurd h0 (by decide)
    | true =>
      have e1 : textproto.canonicalBytes true ("Request".data ++ post) =
          "Request".data ++ textproto.canonicalBytes false post := rfl
      rw [List.nil_append, e1] at h
      have h0 := List.append_cancel_left h
      rw [List.nil_append, e2, h0]
  | cons c t ih =>
    have e : ∀ x : List Char, textproto.canonicalBytes u (c :: x) =
        textproto.canonicalByte u c ::
          textproto.canonicalBytes (textproto.canonicalByte u c == '-') x := fun _ => rfl
    rw [List.cons_append, e] at h ⊢
    obtain ⟨h1, h2⟩ := List.cons.inj h
    rw [h1] at h2 ⊢
    rw [ih _ h2]

theorem canonical_replaceList (l : List Char)
    (h : (if l.all textproto.validHeaderFieldByte then textproto.canonicalBytes true l else l) = l) :
    (if (strings.replaceList "Request".data "Allow".data l).all textproto.validHeaderFieldByte then
        textproto.canonicalBytes true (strings.replaceList "Request".data "Allow".data l)
      else strings.replaceList "Request".data "Allow".data l) =
      strings.replaceList "Request".data "Allow".data l := by
  rcases replaceList_spec "Request".data "Allow".data l with e | ⟨pre, post, h1, h2⟩
  · rw [e]; exact h
  · have hr : "Request".data.all textproto.validHeaderFieldByte = true := by decide
    have ha : "Allow".data.all textproto.validHeaderFieldByte = true := by decide
    rw [h2]
    by_cases hv : l.all textproto.validHeaderFieldByte = true
    · rw [if_pos hv, h1] at h
      rw [h1, List.all_append, List.all_append, hr] at hv
      have hv' : (pre ++ ("Allow".data ++ post)).all textproto.validHeaderFieldByte = true := by
        rw [List.all_append, List.all_append, ha]; exact hv
      rw [if_pos hv']
      exact canonicalBytes_replace pre post true h
    · rw [h1, List.all_append, List.all_append, hr] at hv
      have hv' : ¬ (pre ++ ("Allow".data ++ post)).all textproto.validHeaderFieldByte = true := by
        rw [List.all_append, List.all_append, ha]; exact hv
      rw [if_neg hv']

theorem canonical_Replace (n : String) (h : textproto.CanonicalMIMEHeaderKey n = n) :
    textproto.CanonicalMIMEHeaderKey (strings.Replace n "Request" "Allow") =
      strings.Replace n "Request" "Allow" := by
  have hl : (if n.data.all textproto.validHeaderFieldByte then
      textproto.canonicalBytes true n.data else n.data) = n.data := by
    unfold textproto.CanonicalMIMEHeaderKey at h
    by_cases hv : n.data.all textproto.validHeaderFieldByte = true
    · rw [if_pos hv] at h ⊢
      exact String.ext_iff.mp h
    · rw [if_neg hv]
  have := canonical_replaceList n.data hl
  unfold textproto.CanonicalMIMEHeaderKey strings.Replace
  by_cases hv : (strings.replaceList "Request".data "Allow".data n.data).all
      textproto.validHeaderFieldByte = true
  · rw [if_pos hv] at this ⊢
    exact String.ext_iff.mpr this
  · rw [if_neg hv]

/-! ## `validateFlags` -/

theorem validateFlags_fatal (g : Flags) (h : ':' ∉ g.portTo.data ∨ ':' ∉ g.listen.data) :
    ∃ msg, validateFlags g = .fatal msg := by
  unfold validateFlags
  by_cases hp : strings.Contains g.portTo ":" = true
  · have hl : ¬ strings.Contains g.listen ":" = true := by
      rcases h with h | h
      · exact absurd ((Contains_colon _).mp hp) h
      · exact fun e => h ((Contains_colon _).mp e)
    simp [firstWithoutSeparator, hp, hl]
  · simp [firstWithoutSeparator, hp]

theorem data_loopback (x : String) :
    ("127.0.0.1:" ++ x).data =
      '1' :: '2' :: '7' :: '.' :: '0' :: '.' :: '0' :: '.' :: '1' :: ':' :: x.data := rfl

theorem hostOf_loopback (x : String) : hostOf ("127.0.0.1:" ++ x) = "127.0.0.1" := by
  unfold hostOf
  rw [data_loopback]
  rfl

theorem portOf_loopback (x : String) : portOf ("127.0.0.1:" ++ x) = x := by
  unfold portOf
  rw [data_loopback]
  rfl

theorem count_loopback (x : String) :
    ("127.0.0.1:" ++ x).data.count ':' = x.data.count ':' + 1 := by
  rw [data_loopback]
  simp [List.count_cons]

/-- C7. For every upstream address `portTo` and listen address `listen`:
`validateFlags` ends the process through `log.Fatalf` if either string has no
`':'`, and returns normally if both have one. -/
theorem validateFlags_fatal_or_returns (g : Flags) :
    ((':' ∉ g.portTo.data ∨ ':' ∉ g.listen.data) → ∃ msg, validateFlags g = .fatal msg) ∧
    ((':' ∈ g.portTo.data ∧ ':' ∈ g.listen.data) → ∃ g', validateFlags g = .returned g') := by
  refine ⟨validateFlags_fatal g, fun h => ?_⟩
  rw [validateFlags_of_separators g h.1 h.2]
  by_cases hh : hostOf g.portTo = ""
  · exact ⟨_, if_pos hh⟩
  · exact ⟨_, if_neg hh⟩

/-- C7 at concrete addresses: `8000` has no separator and is fatal; the
default addresses pass. -/
theorem validateFlags_fatal_or_returns_witness :
    (∃ msg, validateFlags { portTo := "8000", listen := "0.0.0.0:3000", verbose := false }
      = .fatal msg) ∧
    (∃ g', validateFlags Flags.default = .returned g') :=
  ⟨(validateFlags_fatal_or_returns _).1 (Or.inl (by decide)),
   (validateFlags_fatal_or_returns _).2 ⟨by decide, by decide⟩⟩

/-- C8. For every listen address with a `':'`: for every port string `PORT`
(a port is the text after the separator, so it holds no `':'`), `validateFlags`
on the upstream address `":" ++ PORT` leaves it equal to `"127.0.0.1:" ++ PORT`,
the port preserved; and an upstream address `HOST:REST` whose `HOST`, the text
before the separator, is not empty is left unchanged. -/
theorem validateFlags_loopback (listen : String) (v : Bool) (hl : ':' ∈ listen.data) :
    (∀ PORT : String, ':' ∉ PORT.data →
      validateFlags { portTo := ":" ++ PORT, listen := listen, verbose := v } =
        .returned { portTo := "127.0.0.1:" ++ PORT, listen := listen, verbose := v }) ∧
    (∀ HOST REST : String, HOST ≠ "" → ':' ∉ HOST.data →
      validateFlags { portTo := HOST ++ ":" ++ REST, listen := listen, verbose := v } =
        .returned { portTo := HOST ++ ":" ++ REST, listen := listen, verbose := v }) := by
  constructor
  · intro PORT hp
    have hd : (":" ++ PORT).data = ':' :: PORT.data := rfl
    rw [validateFlags_of_separators _ (by simp [hd]) hl]
    have h1 : hostOf (":" ++ PORT) = "" := by
      unfold hostOf; rw [hd]; rfl
    have h2 : hostOf (portOf (":" ++ PORT)) = PORT := by
      unfold hostOf portOf
      rw [hd]
      simp [List.dropWhile, takeWhile_ne_of_not_mem ':' PORT.data hp]
    simp [h1, h2]
  · intro HOST REST hne hh
    have hd : (HOST ++ ":" ++ REST).data = HOST.data ++ ':' :: REST.data := by
      simp [String.data_append]
    rw [validateFlags_of_separators _ (by simp [hd]) hl]
    have h1 : hostOf (HOST ++ ":" ++ REST) = HOST := by
      unfold hostOf
      have hall : ∀ c ∈ HOST.data, (c != ':') = true := by
        intro c hc
        have : c ≠ ':' := fun e => hh (e ▸ hc)
        simpa using this
      rw [hd, List.takeWhile_append_of_pos hall]
      simp [List.takeWhile]
    simp [h1, hne]

/-- C8 at `:8000`, which becomes `127.0.0.1:8000`, and at `example.org:8080`,
which stays. -/
theorem validateFlags_loopback_witness :
    validateFlags { portTo := ":" ++ "8000", listen := "0.0.0.0:3000", verbose := false } =
      .returned { portTo := "127.0.0.1:" ++ "8000", listen := "0.0.0.0:3000", verbose := false } ∧
    validateFlags { portTo := "example.org" ++ ":" ++ "8080", listen := "0.0.0.0:3000",
                    verbose := false } =
      .returned { portTo := "example.org" ++ ":" ++ "8080", listen := "0.0.0.0:3000",
                  verbose := false } :=
  ⟨(validateFlags_loopback "0.0.0.0:3000" false (by decide)).1 "8000" (by decide),
   (validateFlags_loopback "0.0.0.0:3000" false (by decide)).2
     "example.org" "8080" (by decide) (by decide)⟩

/-- C9 as stated fails: `validateFlags` returns normally with the upstream
addresses `a:b:c` (two separators), `host:` (no port) and, from `:`, with
`127.0.0.1:` (no port), none of which satisfies the invariant. -/
theorem validateFlags_invariant_counterexample :
    (validateFlags { portTo := "a:b:c", listen := "0.0.0.0:3000", verbose := false } =
        .returned { portTo := "a:b:c", listen := "0.0.0.0:3000", verbose := false } ∧
      ¬ UpstreamAddressInvariant "a:b:c") ∧
    (validateFlags { portTo := "host:", listen := "0.0.0.0:3000", verbose := false } =
        .returned { portTo := "host:", listen := "0.0.0.0:3000", verbose := false } ∧
      ¬ UpstreamAddressInvariant "host:") ∧
    (validateFlags { portTo := ":", listen := "0.0.0.0:3000", verbose := false } =
        .returned { portTo := "127.0.0.1:", listen := "0.0.0.0:3000", verbose := false } ∧
      ¬ UpstreamAddressInvariant "127.0.0.1:") := by
  decide

theorem not_mem_hostOf (x : String) : ':' ∉ (hostOf x).data := by
  intro h
  have := List.mem_takeWhile_imp h
  simp at this

theorem data_of_hostOf_empty (x : String) (hx : ':' ∈ x.data) (hh : hostOf x = "") :
    x.data = ':' :: (portOf x).data := by
  obtain ⟨r, hr⟩ := dropWhile_ne_of_mem ':' x.data hx
  have ht : x.data.takeWhile (fun c => c != ':') = [] := by
    have := String.ext_iff.mp hh
    simpa [hostOf] using this
  have := List.takeWhile_append_dropWhile (fun c => c != ':') x.data
  rw [ht, hr, List.nil_append] at this
  have hpo : (portOf x).data = r := by simp [portOf, hr]
  rw [hpo]
  exact this.symm

/-- C9, amended. Whenever `validateFlags` returns normally, the upstream
address it leaves contains a `':'` and the host before its first `':'` is not
empty; and when the address it was given has exactly one `':'` with a
non-empty port after it, the address it leaves satisfies the whole invariant.
(The port is not checked, and further `':'` are let through.) -/
theorem validateFlags_result (g g' : Flags) (h : validateFlags g = .returned g') :
    ':' ∈ g'.portTo.data ∧ hostOf g'.portTo ≠ "" ∧
    (g.portTo.data.count ':' = 1 → portOf g.portTo ≠ "" →
      UpstreamAddressInvariant g'.portTo) := by
  have hp : ':' ∈ g.portTo.data := by
    by_contra hc
    obtain ⟨m, hm⟩ := validateFlags_fatal g (Or.inl hc)
    rw [hm] at h
    cases h
  have hl : ':' ∈ g.listen.data := by
    by_contra hc
    obtain ⟨m, hm⟩ := validateFlags_fatal g (Or.inr hc)
    rw [hm] at h
    cases h
  rw [validateFlags_of_separators g hp hl] at h
  by_cases hh : hostOf g.portTo = ""
  · rw [if_pos hh] at h
    have hg : g' = { g with portTo := "127.0.0.1:" ++ hostOf (portOf g.portTo) } :=
      (Exit.returned.inj h).symm
    subst hg
    refine ⟨by simp [data_loopback], by rw [hostOf_loopback]; decide, fun hc hport => ?_⟩
    have hd := data_of_hostOf_empty g.portTo hp hh
    have hnot : ':' ∉ (portOf g.portTo).data := by
      rw [hd, List.count_cons_self] at hc
      exact List.count_eq_zero.mp (by omega)
    have hpp : hostOf (portOf g.portTo) = portOf g.portTo := by
      apply String.ext_iff.mpr
      simp only [hostOf]
      exact takeWhile_ne_of_not_mem ':' _ hnot
    refine ⟨?_, ?_, ?_⟩
    · show ("127.0.0.1:" ++ hostOf (portOf g.portTo)).data.count ':' = 1
      rw [count_loopback, List.count_eq_zero.mpr (not_mem_hostOf _)]
    · show hostOf ("127.0.0.1:" ++ hostOf (portOf g.portTo)) ≠ ""
      rw [hostOf_loopback]; decide
    · show portOf ("127.0.0.1:" ++ hostOf (portOf g.portTo)) ≠ ""
      rw [portOf_loopback, hpp]
      intro e
      rw [e] at hd
      have hport' : portOf g.portTo ≠ "" := hport
      have h2 : portOf g.portTo = "" := by
        apply String.ext_iff.mpr
        simp [portOf, hd, List.dropWhile]
      exact hport' h2
  · rw [if_neg hh] at h
    have hg : g' = g := (Exit.returned.inj h).symm
    subst hg
    exact ⟨hp, hh, fun hc hport => ⟨hc, hh, hport⟩⟩

/-- C9 amended, at the upstream address `:8000`, which `validateFlags`
leaves as `127.0.0.1:8000`. -/
theorem validateFlags_result_witness :
    ':' ∈ "127.0.0.1:8000".data ∧ hostOf "127.0.0.1:8000" ≠ "" ∧
    (":8000".data.count ':' = 1 → portOf ":8000" ≠ "" →
      UpstreamAddressInvariant "127.0.0.1:8000") :=
  validateFlags_result
    { portTo := ":8000", listen := "0.0.0.0:3000", verbose := false }
    { portTo := "127.0.0.1:8000", listen := "0.0.0.0:3000", verbose := false }
    (by decide)

/-! ## The header loops of the handler -/

open http in
theorem valuesVia_congr (f f' : String → Option String) (h : Header) (k : String)
    (hf : ∀ e ∈ h, f e.1 = f' e.1) :
    Header.valuesVia f h k = Header.valuesVia f' h k := by
  unfold Header.valuesVia
  congr 1
  apply List.filter_congr
  intro e he
  rw [hf e he]

open http in
theorem valuesVia_some (h : Header) (k : String) :
    Header.valuesVia (fun n => some n) h k = Header.index h k := by
  unfold Header.valuesVia Header.index
  congr 1
  apply List.filter_congr
  intro e _
  simp

open http in
theorem appendVia_of_none (f : String → Option String) (src dst : Header)
    (hf : ∀ e ∈ src, f e.1 = none) : Header.appendVia f dst src = dst := by
  induction src generalizing dst with
  | nil => rfl
  | cons e t ih =>
    have h1 : f e.1 = none := hf e (List.mem_cons_self _ _)
    have e1 : Header.appendVia f dst (e :: t) = Header.appendVia f dst t := by
      simp [Header.appendVia, h1]
    rw [e1]
    exact ih dst (fun x hx => hf x (List.mem_cons_of_mem _ hx))

open http in
theorem foldl_addHeader (vs : List String) (w : ResponseWriter) (k : String) :
    vs.foldl (fun w v => w.addHeader k v) w =
      { w with header :=
          (vs.foldl (fun d v => Header.append d (textproto.CanonicalMIMEHeaderKey k) v)
            w.header) } := by
  induction vs generalizing w with
  | nil => rfl
  | cons v t ih =>
    rw [List.foldl_cons, ih]
    rfl

open http in
theorem preflightHeaders_eq (h : Header) (w : ResponseWriter) :
    preflightHeaders w h =
      { w with header :=
          (Header.appendVia (fun n => (preflightName n).map textproto.CanonicalMIMEHeaderKey)
            w.header h) } := by
  induction h generalizing w with
  | nil => rfl
  | cons e t ih =>
    unfold preflightHeaders at ih ⊢
    rw [List.foldl_cons]
    by_cases hc : strings.Contains e.1 "Access-Control-Request" = true
    · rw [if_pos hc, foldl_addHeader, ih]
      simp [Header.appendVia, preflightName, hc]
    · rw [if_neg hc, ih]
      simp [Header.appendVia, preflightName, hc]

open http in
theorem copyResponseHeaders_eq (h : Header) (w : ResponseWriter) :
    copyResponseHeaders w h =
      { w with header :=
          Header.appendVia (fun n => some (textproto.CanonicalMIMEHeaderKey n)) w.header h } := by
  induction h generalizing w with
  | nil => rfl
  | cons e t ih =>
    unfold copyResponseHeaders at ih ⊢
    rw [List.foldl_cons, foldl_addHeader, ih]
    simp [Header.appendVia]

open http in
theorem foldl_requestAdd (vs : List String) (req : ClientRequest) (k : String) :
    vs.foldl (fun req v => { req with Header := Header.Add req.Header k v }) req =
      { req with Header :=
          (vs.foldl (fun d v => Header.append d (textproto.CanonicalMIMEHeaderKey k) v)
            req.Header) } := by
  induction vs generalizing req with
  | nil => rfl
  | cons v t ih =>
    rw [List.foldl_cons, ih]
    rfl

open http in
theorem copyRequestHeaders_eq (h : Header) (req : ClientRequest) :
    copyRequestHeaders req h =
      { req with Header :=
          Header.appendVia (fun n => some (textproto.CanonicalMIMEHeaderKey n)) req.Header h } := by
  induction h generalizing req with
  | nil => rfl
  | cons e t ih =>
    unfold copyRequestHeaders at ih ⊢
    rw [List.foldl_cons, foldl_requestAdd, ih]
    simp [Header.appendVia]

open http in
theorem baseWriter_eq :
    (ResponseWriter.fresh.addHeader "Access-Control-Allow-Origin" "*").addHeader
        "Access-Control-Allow-Methods" allowMethods =
      { header := baseHeaders, committed := none, body := "" } := by
  decide

open http in
theorem nodupKeys_baseHeaders : Header.NodupKeys baseHeaders := by
  unfold Header.NodupKeys
  decide

theorem serve_options (g : Flags) (Do : http.Client → http.ClientRequest → Except String http.Response)
    (r : http.Request) (hm : r.Method = "OPTIONS") :
    serve g Do r =
      { w := preflightHeaders { header := baseHeaders, committed := none, body := "" } r.Header,
        calls := [], ending := .returned } := by
  unfold serve handleReverseRequest
  simp only [baseWriter_eq, hm, if_true]

theorem serve_forward (g : Flags)
    (Do : http.Client → http.ClientRequest → Except String http.Response)
    (r : http.Request) (hm : r.Method ≠ "OPTIONS") :
    serve g Do r =
      match http.NewRequest r.Method (toCall g r) r.Body with
      | none =>
        { w := { header := baseHeaders, committed := none, body := "" }, calls := [],
          ending := .panicked }
      | some req =>
        match Do (clientFor r) (copyRequestHeaders req r.Header) with
        | .error err =>
          { w := { header := baseHeaders, committed := some (500, baseHeaders), body := err },
            calls := [(clientFor r, copyRequestHeaders req r.Header)], ending := .returned }
        | .ok resp =>
          match (copyResponseHeaders { header := baseHeaders, committed := none, body := "" }
                  resp.Header).WriteHeader resp.StatusCode with
          | none =>
            { w := copyResponseHeaders { header := baseHeaders, committed := none, body := "" }
                     resp.Header,
              calls := [(clientFor r, copyRequestHeaders req r.Header)], ending := .panicked }
          | some w =>
            { w := w.Copy resp.Body,
              calls := [(clientFor r, copyRequestHeaders req r.Header)],
              ending := .returned } := by
  unfold serve handleReverseRequest
  simp only [baseWriter_eq, hm, if_false]
  cases http.NewRequest r.Method (toCall g r) r.Body with
  | none => rfl
  | some req =>
    simp only
    cases Do (clientFor r) (copyRequestHeaders req r.Header) with
    | error err =>
      simp [http.ResponseWriter.WriteHeader, http.ResponseWriter.Write]
    | ok resp => rfl

/-! ## The preflight branch -/

open http in
/-- C1. For every inbound request whose method is OPTIONS (its header names
in the canonical form in which the server delivers them), the handler makes no
outbound call, writes no status and no body (so the reply has status 200), and
the reply headers are exactly the two base headers plus, for every inbound
name that contains `Access-Control-Request` and every value under it, in
order, that value under the name with its first `Request` replaced by
`Allow`.  Containing is occurrence as a contiguous substring, and the
replacement turns `pre ++ "Request" ++ post` into `pre ++ "Allow" ++ post`
where no `Request` starts inside `pre`.  `Access-Control-Request-Headers` is
answered under `Access-Control-Allow-Headers`,
`X-Access-Control-Request-Request-Id` under
`X-Access-Control-Allow-Request-Id`, and without a matching inbound name the
reply holds the two base headers only. -/
theorem preflight_reply (g : Flags)
    (Do : Client → ClientRequest → Except String Response) (r : Request)
    (hm : r.Method = "OPTIONS") (hc : Header.Canonical r.Header) :
    (serve g Do r).calls = [] ∧ (serve g Do r).ending = .returned ∧
    (serve g Do r).w.committed = none ∧ (serve g Do r).w.body = "" ∧
    (serve g Do r).w.reply.status = 200 ∧
    Header.NodupKeys (serve g Do r).w.reply.header ∧
    (∀ k, Header.index (serve g Do r).w.reply.header k =
        Header.index baseHeaders k ++ Header.valuesVia preflightName r.Header k) ∧
    ((∀ e ∈ r.Header, strings.Contains e.1 "Access-Control-Request" = false) →
        (serve g Do r).w.reply.header = baseHeaders) ∧
    (∀ n, preflightName n =
      if "Access-Control-Request".data <:+: n.data then
        some (strings.Replace n "Request" "Allow")
      else none) ∧
    (∀ pre post : String, ¬ "Request".data <:+: (pre ++ "Reques").data →
      strings.Replace (pre ++ "Request" ++ post) "Request" "Allow" = pre ++ "Allow" ++ post) ∧
    preflightName "Access-Control-Request-Headers" = some "Access-Control-Allow-Headers" ∧
    preflightName "X-Access-Control-Request-Request-Id" =
      some "X-Access-Control-Allow-Request-Id" := by
  rw [serve_options g Do r hm, preflightHeaders_eq]
  obtain ⟨h1, h2⟩ := appendVia_spec
    (fun n => (preflightName n).map textproto.CanonicalMIMEHeaderKey) r.Header baseHeaders
    nodupKeys_baseHeaders
  refine ⟨rfl, rfl, rfl, rfl, rfl, h1, fun k => ?_, fun hno => ?_, fun n => ?_, Replace_first,
    by decide, by decide⟩
  · change Header.index (Header.appendVia
      (fun n => (preflightName n).map textproto.CanonicalMIMEHeaderKey) baseHeaders r.Header) k =
        Header.index baseHeaders k ++ Header.valuesVia preflightName r.Header k
    rw [h2 k]
    congr 1
    apply valuesVia_congr
    intro e he
    unfold preflightName
    by_cases hcon : strings.Contains e.1 "Access-Control-Request" = true
    · simp only [if_pos hcon, Option.map_some']
      rw [canonical_Replace e.1 (hc e he)]
    · simp only [if_neg hcon, Option.map_none']
  · change Header.appendVia
      (fun n => (preflightName n).map textproto.CanonicalMIMEHeaderKey) baseHeaders r.Header =
        baseHeaders
    apply appendVia_of_none
    intro e he
    simp [preflightName, hno e he]
  · unfold preflightName
    by_cases hcon : strings.Contains n "Access-Control-Request" = true
    · rw [if_pos hcon, if_pos ((Contains_iff_occurs _ _).mp hcon)]
    · rw [if_neg hcon, if_neg (fun hi => hcon ((Contains_iff_occurs _ _).mpr hi))]

open http in
/-- C1 at the preflight `OPTIONS /api` with `Access-Control-Request-Headers:
X-Custom`, two values of `X-Access-Control-Request-Request-Id` and `Accept`. -/
theorem preflight_reply_witness :
    (serve Flags.default unreachable preflightExample).calls = [] ∧
    (serve Flags.default unreachable preflightExample).w.reply =
      { status := 200, body := "",
        header := [("Access-Control-Allow-Origin", ["*"]),
                   ("Access-Control-Allow-Methods", [allowMethods]),
                   ("Access-Control-Allow-Headers", ["X-Custom"]),
                   ("X-Access-Control-Allow-Request-Id", ["a", "b"])] } ∧
    Header.index (serve Flags.default unreachable preflightExample).w.reply.header
        "Access-Control-Allow-Headers" =
      Header.index baseHeaders "Access-Control-Allow-Headers" ++
        Header.valuesVia preflightName preflightExample.Header "Access-Control-Allow-Headers" :=
  ⟨(preflight_reply Flags.default unreachable preflightExample (by decide) (by decide)).1,
   by decide,
   (preflight_reply Flags.default unreachable preflightExample
      (by decide) (by decide)).2.2.2.2.2.2.1 "Access-Control-Allow-Headers"⟩

/-! ## The forwarding branch -/

open http in
theorem newRequest_some (m t b : String) (q : ClientRequest) (h : NewRequest m t b = some q) :
    q = { Method := if m = "" then "GET" else m, Target := t, Body := b, Header := [] } := by
  unfold NewRequest at h
  simp only at h
  by_cases hv : validMethod (if m = "" then "GET" else m) = true
  · simp only [hv, Bool.not_true, Bool.false_eq_true, if_false] at h
    cases hp : url.Parse t with
    | none =>
      rw [hp] at h
      cases h
    | some u =>
      rw [hp] at h
      exact (Option.some.inj h).symm
  · simp only [hv, Bool.not_false, if_true] at h
    cases h

open http in
theorem writeHeader_cases (w : ResponseWriter) (code : Nat) (hw : w.committed = none) :
    w.WriteHeader code = none ∨ w.WriteHeader code = some w ∨
    w.WriteHeader code = some { w with committed := some (code, w.header) } := by
  unfold ResponseWriter.WriteHeader
  rw [hw]
  simp only
  by_cases h1 : (decide (code < 100) || decide (code > 999)) = true
  · left
    rw [if_pos h1]
  · rw [if_neg h1]
    by_cases h2 : (decide (100 ≤ code) && decide (code ≤ 199) && code != 101) = true
    · right; left
      rw [if_pos h2]
    · right; right
      rw [if_neg h2]

open http in
theorem writeHeader_final (w : ResponseWriter) (code : Nat) (hw : w.committed = none)
    (hs : finalStatus code) :
    w.WriteHeader code = some { w with committed := some (code, w.header) } := by
  unfold ResponseWriter.WriteHeader
  rw [hw]
  simp only
  obtain ⟨h1, h2⟩ := hs
  have c1 : ¬ (decide (code < 100) || decide (code > 999)) = true := by
    simp only [Bool.or_eq_true, decide_eq_true_eq]
    omega
  have c2 : ¬ (decide (100 ≤ code) && decide (code ≤ 199) && code != 101) = true := by
    simp only [Bool.and_eq_true, decide_eq_true_eq, bne_iff_ne, ne_eq]
    omega
  rw [if_neg c1, if_neg c2]

open http in
theorem copy_committed (h h' : Header) (code : Nat) (b : String) :
    ({ header := h, committed := some (code, h'), body := "" } : ResponseWriter).Copy b =
      { header := h, committed := some (code, h'), body := b } := by
  unfold ResponseWriter.Copy
  by_cases hb : b = ""
  · rw [if_pos hb, hb]
  · rw [if_neg hb]
    simp [ResponseWriter.Write]

open http in
theorem serve_calls_forward (g : Flags) (Do : Client → ClientRequest → Except String Response)
    (r : Request) (hm : r.Method ≠ "OPTIONS") :
    (serve g Do r).calls =
      match NewRequest r.Method (toCall g r) r.Body with
      | none => []
      | some q => [(clientFor r, copyRequestHeaders q r.Header)] := by
  rw [serve_forward g Do r hm]
  cases NewRequest r.Method (toCall g r) r.Body with
  | none => rfl
  | some q =>
    simp only
    cases Do (clientFor r) (copyRequestHeaders q r.Header) with
    | error err => rfl
    | ok resp =>
      simp only
      cases (copyResponseHeaders { header := baseHeaders, committed := none, body := "" }
        resp.Header).WriteHeader resp.StatusCode <;> rfl

open http in
theorem mem_serve_calls (g : Flags) (Do : Client → ClientRequest → Except String Response)
    (r : Request) (c : Client) (req : ClientRequest) (hm : r.Method ≠ "OPTIONS")
    (hmem : (c, req) ∈ (serve g Do r).calls) :
    ∃ q, NewRequest r.Method (toCall g r) r.Body = some q ∧
      req = copyRequestHeaders q r.Header := by
  rw [serve_calls_forward g Do r hm] at hmem
  cases hq : NewRequest r.Method (toCall g r) r.Body with
  | none =>
    rw [hq] at hmem
    cases hmem
  | some q =>
    rw [hq] at hmem
    simp only [List.mem_singleton, Prod.mk.injEq] at hmem
    exact ⟨q, rfl, hmem.2⟩

open http in
theorem serve_calls (g : Flags) (Do : Client → ClientRequest → Except String Response)
    (r : Request) (c : Client) (req : ClientRequest)
    (hcall : (serve g Do r).calls = [(c, req)]) :
    r.Method ≠ "OPTIONS" ∧ c = clientFor r ∧
    ∃ q, NewRequest r.Method (toCall g r) r.Body = some q ∧
      req = copyRequestHeaders q r.Header := by
  by_cases hm : r.Method = "OPTIONS"
  · rw [serve_options g Do r hm] at hcall
    cases hcall
  · refine ⟨hm, ?_⟩
    rw [serve_calls_forward g Do r hm] at hcall
    cases hq : NewRequest r.Method (toCall g r) r.Body with
    | none =>
      rw [hq] at hcall
      cases hcall
    | some q =>
      rw [hq] at hcall
      simp only [List.cons.injEq, Prod.mk.injEq, and_true] at hcall
      exact ⟨hcall.1.symm, q, rfl, hcall.2.symm⟩

open http in
theorem serve_of_error (g : Flags) (Do : Client → ClientRequest → Except String Response)
    (r : Request) (c : Client) (req : ClientRequest) (err : String)
    (hcall : (serve g Do r).calls = [(c, req)]) (hdo : Do c req = .error err) :
    serve g Do r =
      { w := { header := baseHeaders, committed := some (500, baseHeaders), body := err },
        calls := [(c, req)], ending := .returned } := by
  obtain ⟨hm, hc, q, hq, hreq⟩ := serve_calls g Do r c req hcall
  subst hc hreq
  rw [serve_forward g Do r hm, hq]
  simp only [hdo]

open http in
theorem serve_of_response (g : Flags) (Do : Client → ClientRequest → Except String Response)
    (r : Request) (c : Client) (req : ClientRequest) (resp : Response)
    (hcall : (serve g Do r).calls = [(c, req)]) (hdo : Do c req = .ok resp)
    (hs : finalStatus resp.StatusCode) :
    serve g Do r =
      { w := { header :=
                (Header.appendVia (fun n => some (textproto.CanonicalMIMEHeaderKey n))
                  baseHeaders resp.Header),
               committed := some (resp.StatusCode,
                Header.appendVia (fun n => some (textproto.CanonicalMIMEHeaderKey n))
                  baseHeaders resp.Header),
               body := resp.Body },
        calls := [(c, req)], ending := .returned } := by
  obtain ⟨hm, hc, q, hq, hreq⟩ := serve_calls g Do r c req hcall
  subst hc hreq
  rw [serve_forward g Do r hm, hq]
  simp only [hdo]
  rw [copyResponseHeaders_eq, writeHeader_final _ _ rfl hs]
  simp only [copy_committed]

open http in
theorem serve_reply_shape (g : Flags) (Do : Client → ClientRequest → Except String Response)
    (r : Request) :
    (∃ extra : String → List String, ∀ k,
      Header.index (serve g Do r).w.reply.header k = Header.index baseHeaders k ++ extra k) ∧
    (((serve g Do r).w.committed = none ∧ (serve g Do r).w.body = "") ∨
      ∃ code, (serve g Do r).w.committed = some (code, (serve g Do r).w.reply.header)) := by
  by_cases hm : r.Method = "OPTIONS"
  · rw [serve_options g Do r hm, preflightHeaders_eq]
    obtain ⟨-, h2⟩ := appendVia_spec
      (fun n => (preflightName n).map textproto.CanonicalMIMEHeaderKey) r.Header baseHeaders
      nodupKeys_baseHeaders
    exact ⟨⟨_, h2⟩, Or.inl ⟨rfl, rfl⟩⟩
  · rw [serve_forward g Do r hm]
    cases http.NewRequest r.Method (toCall g r) r.Body with
    | none => exact ⟨⟨fun _ => [], fun k => by simp [ResponseWriter.reply]⟩, Or.inl ⟨rfl, rfl⟩⟩
    | some q =>
      simp only
      cases Do (clientFor r) (copyRequestHeaders q r.Header) with
      | error err =>
        exact ⟨⟨fun _ => [], fun k => by simp [ResponseWriter.reply]⟩, Or.inr ⟨500, rfl⟩⟩
      | ok resp =>
        simp only [copyResponseHeaders_eq]
        obtain ⟨-, h2⟩ := appendVia_spec
          (fun n => some (textproto.CanonicalMIMEHeaderKey n)) resp.Header baseHeaders
          nodupKeys_baseHeaders
        rcases writeHeader_cases
          { header := Header.appendVia (fun n => some (textproto.CanonicalMIMEHeaderKey n))
              baseHeaders resp.Header,
            committed := none, body := "" } resp.StatusCode rfl with hw | hw | hw
        · rw [hw]
          exact ⟨⟨_, h2⟩, Or.inl ⟨rfl, rfl⟩⟩
        · rw [hw]
          simp only
          by_cases hb : resp.Body = ""
          · have e : ∀ W : ResponseWriter, W.Copy resp.Body = W := fun W => by
              unfold ResponseWriter.Copy
              rw [if_pos hb]
            rw [e]
            exact ⟨⟨_, h2⟩, Or.inl ⟨rfl, rfl⟩⟩
          · have e : ∀ W : ResponseWriter, W.Copy resp.Body = W.Write resp.Body := fun W => by
              unfold ResponseWriter.Copy
              rw [if_neg hb]
            rw [e]
            exact ⟨⟨_, h2⟩, Or.inr ⟨200, rfl⟩⟩
        · rw [hw]
          simp only [copy_committed]
          exact ⟨⟨_, h2⟩, Or.inr ⟨resp.StatusCode, rfl⟩⟩

open http in
/-- C2. For every inbound request, whatever the handler does (preflight
answer, relayed upstream response, status 500 after a failed call), the reply
headers hold `*` as first value of `Access-Control-Allow-Origin` and the
literal method list, `HEAD` twice, as first value of
`Access-Control-Allow-Methods`.  They are among the headers in force when the
status is written, and no body is written before the status. -/
theorem base_headers_always (g : Flags)
    (Do : Client → ClientRequest → Except String Response) (r : Request) :
    (∃ rest, Header.index (serve g Do r).w.reply.header "Access-Control-Allow-Origin" =
      "*" :: rest) ∧
    (∃ rest, Header.index (serve g Do r).w.reply.header "Access-Control-Allow-Methods" =
      "GET, PUT, POST, HEAD, TRACE, DELETE, PATCH, COPY, HEAD, LINK, OPTIONS" :: rest) ∧
    (∀ code h, (serve g Do r).w.committed = some (code, h) →
      (∃ rest, Header.index h "Access-Control-Allow-Origin" = "*" :: rest) ∧
      (∃ rest, Header.index h "Access-Control-Allow-Methods" =
        "GET, PUT, POST, HEAD, TRACE, DELETE, PATCH, COPY, HEAD, LINK, OPTIONS" :: rest)) ∧
    ((serve g Do r).w.committed = none → (serve g Do r).w.body = "") := by
  obtain ⟨⟨extra, hx⟩, hs⟩ := serve_reply_shape g Do r
  have h1 : ∃ rest, Header.index (serve g Do r).w.reply.header "Access-Control-Allow-Origin" =
      "*" :: rest := ⟨extra _, by rw [hx]; rfl⟩
  have h2 : ∃ rest, Header.index (serve g Do r).w.reply.header "Access-Control-Allow-Methods" =
      "GET, PUT, POST, HEAD, TRACE, DELETE, PATCH, COPY, HEAD, LINK, OPTIONS" :: rest :=
    ⟨extra _, by rw [hx]; rfl⟩
  refine ⟨h1, h2, fun code h hcm => ?_, fun hn => ?_⟩
  · rcases hs with ⟨hnone, -⟩ | ⟨code', hc'⟩
    · rw [hnone] at hcm
      cases hcm
    · rw [hc'] at hcm
      have : (serve g Do r).w.reply.header = h := (Prod.mk.inj (Option.some.inj hcm)).2
      rw [← this]
      exact ⟨h1, h2⟩
  · rcases hs with ⟨-, hb⟩ | ⟨code', hc'⟩
    · exact hb
    · rw [hc'] at hn
      cases hn

open http in
/-- C3. For every inbound request whose method is not OPTIONS (its header
names in the canonical form in which the server delivers them), every request
the handler calls the upstream with has a header map that holds, under every
name, exactly the values the inbound header map holds under that name, in the
same order: every inbound name and value is there, unmodified, and nothing
else is.  The handler makes that call whenever `http.NewRequest` returns a
request. -/
theorem outbound_headers (g : Flags)
    (Do : Client → ClientRequest → Except String Response) (r : Request)
    (hm : r.Method ≠ "OPTIONS") (hc : Header.Canonical r.Header) :
    (∀ c req, (c, req) ∈ (serve g Do r).calls →
      Header.NodupKeys req.Header ∧
      ∀ n, Header.index req.Header n = Header.index r.Header n) ∧
    (∀ q, NewRequest r.Method (toCall g r) r.Body = some q →
      ∃ req, (serve g Do r).calls = [(clientFor r, req)]) := by
  constructor
  · intro c req hmem
    obtain ⟨q, hq, hreq⟩ := mem_serve_calls g Do r c req hm hmem
    have hq0 := newRequest_some _ _ _ _ hq
    obtain ⟨h1, h2⟩ := appendVia_spec
      (fun n => some (textproto.CanonicalMIMEHeaderKey n)) r.Header []
      (by simp [Header.NodupKeys])
    rw [hreq, copyRequestHeaders_eq, hq0]
    refine ⟨h1, fun n => ?_⟩
    change Header.index (Header.appendVia
      (fun n => some (textproto.CanonicalMIMEHeaderKey n)) [] r.Header) n = _
    rw [h2 n, ← valuesVia_some r.Header n]
    have : Header.index ([] : Header) n = [] := rfl
    rw [this, List.nil_append]
    apply valuesVia_congr
    intro e he
    rw [hc e he]
  · intro q hq
    rw [serve_calls_forward g Do r hm, hq]
    exact ⟨_, rfl⟩

open http in
/-- C3 at `POST /items?x=1` with a `Content-Type` and two `Accept` values:
the upstream is called once, with the same header map. -/
theorem outbound_headers_witness :
    (∀ c req, (c, req) ∈ (serve flags9001 upstream204 postExample).calls →
      Header.NodupKeys req.Header ∧
      ∀ n, Header.index req.Header n = Header.index postExample.Header n) ∧
    (serve flags9001 upstream204 postExample).calls.map (fun x => (x.1, x.2.Header)) =
      [(clientFor postExample,
        [("Content-Type", ["application/json"]), ("Accept", ["text/html", "*/*"])])] :=
  ⟨(outbound_headers flags9001 upstream204 postExample (by decide) (by decide)).1,
   by decide⟩

/-! ## The target of the outbound request -/

open http in
theorem outbound_made_from (g : Flags)
    (Do : Client → ClientRequest → Except String Response) (r : Request)
    (hm : r.Method ≠ "OPTIONS") (hne : r.Method ≠ "") (c : Client) (req : ClientRequest)
    (hmem : (c, req) ∈ (serve g Do r).calls) :
    req.Method = r.Method ∧ req.Body = r.Body ∧ req.Target = toCall g r := by
  obtain ⟨q, hq, hreq⟩ := mem_serve_calls g Do r c req hm hmem
  have hq0 := newRequest_some _ _ _ _ hq
  rw [hreq, copyRequestHeaders_eq, hq0]
  exact ⟨if_neg hne, rfl, rfl⟩

open http in
/-- C4 fails on the code. For the request `GET http://example.com/foo?x=1`,
whose target is in absolute form, the inbound path and query are `/foo?x=1`,
but the text the handler builds at line 41 and makes every outbound request
from is `http://127.0.0.1:9001http://example.com/foo?x=1`: the whole of
`r.URL.String()` is put after the upstream address, not the path and query. -/
theorem absolute_target_appended :
    absoluteExample.Method ≠ "OPTIONS" ∧
    toCall flags9001 absoluteExample = "http://127.0.0.1:9001http://example.com/foo?x=1" ∧
    toCall flags9001 absoluteExample ≠ "http" ++ "://" ++ "127.0.0.1:9001" ++ "/foo?x=1" ∧
    ∀ (Do : Client → ClientRequest → Except String Response) (c : Client)
      (req : ClientRequest),
      (c, req) ∈ (serve flags9001 Do absoluteExample).calls →
        req.Method = "GET" ∧
        req.Target = "http://127.0.0.1:9001http://example.com/foo?x=1" := by
  refine ⟨by decide, by decide, by decide, fun Do c req hmem => ?_⟩
  obtain ⟨h1, -, h3⟩ :=
    outbound_made_from flags9001 Do absoluteExample (by decide) (by decide) c req hmem
  exact ⟨h1, h3⟩

/-! ## The reply to a forwarded request -/

open http in
theorem relay_of_final_status (g : Flags)
    (Do : Client → ClientRequest → Except String Response) (r : Request)
    (c : Client) (req : ClientRequest) (resp : Response)
    (hcall : (serve g Do r).calls = [(c, req)]) (hdo : Do c req = .ok resp)
    (hc : Header.Canonical resp.Header) (hs : finalStatus resp.StatusCode) :
    (serve g Do r).ending = .returned ∧
    (serve g Do r).w.reply.status = resp.StatusCode ∧
    (serve g Do r).w.reply.body = resp.Body ∧
    Header.NodupKeys (serve g Do r).w.reply.header ∧
    (∀ k, Header.index (serve g Do r).w.reply.header k =
      Header.index baseHeaders k ++ Header.index resp.Header k) := by
  rw [serve_of_response g Do r c req resp hcall hdo hs]
  obtain ⟨h1, h2⟩ := appendVia_spec
    (fun n => some (textproto.CanonicalMIMEHeaderKey n)) resp.Header baseHeaders
    nodupKeys_baseHeaders
  have h3 : ∀ k, Header.index (Header.appendVia
      (fun n => some (textproto.CanonicalMIMEHeaderKey n)) baseHeaders resp.Header) k =
      Header.index baseHeaders k ++ Header.index resp.Header k := by
    intro k
    rw [h2 k, ← valuesVia_some resp.Header k]
    congr 1
    apply valuesVia_congr
    intro e he
    rw [hc e he]
  exact ⟨rfl, rfl, rfl, h1, h3⟩

open http in
/-- C5 fails on the code. The upstream answers `POST /items?x=1` with the
status line `HTTP/1.1 099 Gone` and the body `gone`; `client.Do` returns that
response, the handler copies its headers and calls `w.WriteHeader(99)`, which
panics on a code below 100: no status is written, no body, and the handler
does not return.  With status 200 and the body `hello` the same request is
answered with 200, `X-Test: ok` after the base headers, and `hello`. -/
theorem invalid_status_panics :
    (serve flags9001 upstream099 postExample).calls.length = 1 ∧
    (serve flags9001 upstream099 postExample).ending = .panicked ∧
    (serve flags9001 upstream099 postExample).w.committed = none ∧
    (serve flags9001 upstream099 postExample).w.body = "" ∧
    (serve flags9001 upstream099 postExample).w.reply.status ≠ 99 ∧
    (serve flags9001 upstream200 postExample).ending = .returned ∧
    (serve flags9001 upstream200 postExample).w.reply =
      { status := 200, body := "hello",
        header := [("Access-Control-Allow-Origin", ["*"]),
                   ("Access-Control-Allow-Methods", [allowMethods]),
                   ("X-Test", ["ok"])] } := by
  decide

open http in
/-- C6. Whenever the handler's call `client.Do(req)` fails with an error, the
handler returns normally having replied with status 500, a body that is the
text of the error, and the two base headers only: nothing of an upstream
response is in the reply. -/
theorem upstream_failure_reply (g : Flags)
    (Do : Client → ClientRequest → Except String Response) (r : Request)
    (c : Client) (req : ClientRequest) (err : String)
    (hcall : (serve g Do r).calls = [(c, req)]) (hdo : Do c req = .error err) :
    r.Method ≠ "OPTIONS" ∧ (serve g Do r).ending = .returned ∧
    (serve g Do r).w.reply = { status := 500, header := baseHeaders, body := err } := by
  have hm := (serve_calls g Do r c req hcall).1
  rw [serve_of_error g Do r c req err hcall hdo]
  exact ⟨hm, rfl, rfl⟩

open http in
/-- C6 at `GET /` with the upstream unreachable: status 500 with the text of
the dial error. -/
theorem upstream_failure_reply_witness :
    getExample.Method ≠ "OPTIONS" ∧
    (serve flags9001 unreachable getExample).ending = .returned ∧
    (serve flags9001 unreachable getExample).w.reply =
      { status := 500, header := baseHeaders,
        body := "dial tcp 127.0.0.1:9001: connect: connection refused" } :=
  upstream_failure_reply flags9001 unreachable getExample (clientFor getExample)
    { Method := "GET", Target := "http://127.0.0.1:9001/", Body := "",
      Header := [("Accept", ["*/*"])] }
    "dial tcp 127.0.0.1:9001: connect: connection refused" (by decide) rfl

/-! ## The error of `http.NewRequest` is not checked -/

open http in
/-- C10 fails on the code. `validateFlags` accepts the upstream address
`localhost:http`; for `GET /` the target `http://localhost:http/` is rejected
by `url.Parse` (the port is not a number), `http.NewRequest` returns no
request, and the handler, which does not look at the error, dereferences the
nil request: it panics, with no status written, no body, and no call made. -/
theorem newRequest_error_unchecked :
    validateFlags flagsServiceName = .returned flagsServiceName ∧
    getExample.Method ≠ "OPTIONS" ∧
    toCall flagsServiceName getExample = "http://localhost:http/" ∧
    NewRequest getExample.Method (toCall flagsServiceName getExample) getExample.Body = none ∧
    ∀ Do, serve flagsServiceName Do getExample =
      { w := { header := baseHeaders, committed := none, body := "" }, calls := [],
        ending := .panicked } := by
  have hq : NewRequest getExample.Method (toCall flagsServiceName getExample)
      getExample.Body = none := by decide
  refine ⟨by decide, by decide, by decide, hq, fun Do => ?_⟩
  rw [serve_forward flagsServiceName Do getExample (by decide), hq]

end CorsProxy
